import Mathlib

/-!
Verification of the K-PredLog candle cache/retrieval engine.

This file gives a shallow embedding of the engine's core modules —
the data-source id codec (`dataSource.ts`), the coverage analyzer and
orchestrator (`KlineManager`), the year-sharded file store
(`fileStorage`), and the paginated Binance fetch adapter — and proves
or refutes the specification's claims about them.

Modelling conventions:
* JavaScript strings are lists of Unicode code points (`Str`).
* JavaScript numbers that hold epoch timestamps, counts and years are
  modelled as `Int`; every division that occurs is a `Math.floor` or
  `Math.ceil` by a positive constant, which is exact integer
  arithmetic (Lean's `Int` division is euclidean and agrees with
  `Math.floor` for positive divisors).
* Candle prices (open/high/low/close) are decimal payloads that the
  engine carries around but never computes with; they are modelled as
  integers so that equality of candles is decidable.
* The persisted directory is a map from file name to optional file
  content.  `none` covers both a missing file and a malformed one:
  every read treats the two identically (absent), and writes and
  deletes overwrite or remove both unconditionally, so the
  identification is observation-preserving.
* Asynchronous effects are sequentialized exactly in source order;
  remote HTTP is an oracle function from the request's query window to
  a response, and thrown exceptions are `Except.error`.
-/

deriving instance DecidableEq for Except

namespace KPredLog

/-- Code points of a JavaScript string. -/
abbrev Str := List Nat

/-- Code points of a Lean string literal, used to transliterate the
string constants appearing in the source. -/
def str (s : String) : Str := s.toList.map Char.toNat

/-- The Timeframe union type ('1H' | '4H' | '1D' | '1W') from types.ts. -/
inductive Timeframe
  | h1
  | h4
  | d1
  | w1
deriving DecidableEq

/-- The literal string a timeframe value is. -/
def Timeframe.name : Timeframe → Str
  | .h1 => str "1H"
  | .h4 => str "4H"
  | .d1 => str "1D"
  | .w1 => str "1W"

/-- Period length in seconds of each timeframe (the timeframeSecondsMap
of KlineManager.checkDataCoverage; the map is total so the `|| 24*60*60`
default is unreachable). -/
def timeframeSeconds : Timeframe → Int
  | .h1 => 60 * 60
  | .h4 => 4 * 60 * 60
  | .d1 => 24 * 60 * 60
  | .w1 => 7 * 24 * 60 * 60

theorem timeframeSeconds_pos (tf : Timeframe) : 0 < timeframeSeconds tf := by
  cases tf <;> decide

/-- One OHLC candle (KlineCandle).  `time` is UTC seconds since epoch;
op/hi/lo/cl are the open/high/low/close prices, carried as inert
payload (see the file header). -/
structure KlineCandle where
  time : Int
  op : Int
  hi : Int
  lo : Int
  cl : Int
deriving DecidableEq

/-- The number of leap years in [1, y] (extended to all integers by
floor division); `/` on Int is euclidean division, which agrees with
floor division for the positive constant divisors used here. -/
def leapCount (y : Int) : Int := y / 4 - y / 100 + y / 400

/-- Day index (days since 1970-01-01) of January 1 of Gregorian year
`y`, UTC.  Modelled from the JS runtime: the source delegates calendar
math to `Date`, which uses the proleptic Gregorian calendar. -/
def yearStartDay (y : Int) : Int :=
  365 * (y - 1970) + (leapCount (y - 1) - leapCount 1969)

/-- UTC seconds of January 1 00:00:00 of year `y`
(`Date.UTC(y, 0, 1) / 1000`). -/
def yearStartSec (y : Int) : Int := yearStartDay y * 86400

/-- Adjustment step of `yearOfDay`: given a candidate year `a` within
one of the answer, pick the year whose day range contains `d`. -/
def yearAdjust (d a : Int) : Int :=
  if d < yearStartDay a then a - 1
  else if d < yearStartDay (a + 1) then a
  else a + 1

/-- The Gregorian (UTC) year containing day index `d` — the semantics
of `new Date(ms).getUTCFullYear()`.  Modelled from the JS runtime as
an estimate (400 · 146097⁻¹ days per year) plus a one-step
adjustment. -/
def yearOfDay (d : Int) : Int := yearAdjust d (1970 + d * 400 / 146097)

/-- getYearFromTimestamp of fileStorage:
`new Date(timestamp * 1000).getUTCFullYear()`. -/
def getYearFromTimestamp (t : Int) : Int := yearOfDay (t / 86400)

theorem yearStartDay_succ_ge (y : Int) :
    yearStartDay y + 365 ≤ yearStartDay (y + 1) := by
  unfold yearStartDay leapCount
  omega

theorem leapCount_scaled_bounds (n : Int) :
    97 * n - 1200 ≤ 400 * leapCount n ∧ 400 * leapCount n ≤ 97 * n + 1200 := by
  unfold leapCount
  omega

theorem yearStartDay_bounds (y : Int) :
    146097 * (y - 1970) - 1500 ≤ 400 * yearStartDay y ∧
    400 * yearStartDay y ≤ 146097 * (y - 1970) + 1500 := by
  have h1 := leapCount_scaled_bounds (y - 1)
  have h2 : leapCount 1969 = 477 := by decide
  unfold yearStartDay
  omega

theorem yearStartDay_strictMono {a b : Int} (h : a < b) :
    yearStartDay a < yearStartDay b := by
  have ha := yearStartDay_bounds a
  have hb := yearStartDay_bounds b
  omega

theorem yearAdjust_exact {d y a : Int} (h1 : yearStartDay y ≤ d)
    (h2 : d < yearStartDay (y + 1))
    (ha : a = y - 1 ∨ a = y ∨ a = y + 1) : yearAdjust d a = y := by
  unfold yearAdjust
  rcases ha with ha | ha | ha <;> rw [ha]
  · have e1 : y - 1 + 1 = y := by ring
    rw [e1]
    have m1 : yearStartDay (y - 1) < yearStartDay y :=
      yearStartDay_strictMono (by omega)
    split_ifs <;> omega
  · have m1 : yearStartDay y < yearStartDay (y + 1) :=
      yearStartDay_strictMono (by omega)
    split_ifs <;> omega
  · have m1 : yearStartDay (y + 1) < yearStartDay (y + 1 + 1) :=
      yearStartDay_strictMono (by omega)
    split_ifs <;> omega

theorem yearOfDay_eq_of_bounds {y d : Int} (h1 : yearStartDay y ≤ d)
    (h2 : d < yearStartDay (y + 1)) : yearOfDay d = y := by
  have by0 := yearStartDay_bounds y
  have by1 := yearStartDay_bounds (y + 1)
  have ha : 1970 + d * 400 / 146097 = y - 1 ∨ 1970 + d * 400 / 146097 = y ∨
      1970 + d * 400 / 146097 = y + 1 := by omega
  exact yearAdjust_exact h1 h2 ha

theorem yearOfDay_yearStartDay (y : Int) : yearOfDay (yearStartDay y) = y :=
  yearOfDay_eq_of_bounds le_rfl (by have := yearStartDay_succ_ge y; omega)

theorem getYearFromTimestamp_yearStartSec (y : Int) :
    getYearFromTimestamp (yearStartSec y) = y := by
  unfold getYearFromTimestamp yearStartSec
  have h : yearStartDay y * 86400 / 86400 = yearStartDay y := by omega
  rw [h]
  exact yearOfDay_yearStartDay y

theorem getYearFromTimestamp_yearEnd (y : Int) :
    getYearFromTimestamp (yearStartSec (y + 1) - 1) = y := by
  unfold getYearFromTimestamp yearStartSec
  have h : (yearStartDay (y + 1) * 86400 - 1) / 86400 = yearStartDay (y + 1) - 1 := by
    omega
  rw [h]
  exact yearOfDay_eq_of_bounds (by have := yearStartDay_succ_ge y; omega) (by omega)

theorem yearStartSec_eq_zero_iff (y : Int) : yearStartSec y = 0 ↔ y = 1970 := by
  constructor
  · intro h
    have hd : yearStartDay y = 0 := by unfold yearStartSec at h; omega
    have h0 : yearOfDay 0 = 1970 := by decide
    have := yearOfDay_eq_of_bounds (y := y) (d := 0) (by omega)
      (by have := yearStartDay_succ_ge y; omega)
    omega
  · intro h
    subst h
    decide

theorem yearEndSec_ne_zero (y : Int) : yearStartSec (y + 1) - 1 ≠ 0 := by
  unfold yearStartSec
  omega

/-- JS String.prototype.toLowerCase restricted to the ASCII range (the
ids handled by the source are ASCII). -/
def charToLower (c : Nat) : Nat := if 65 ≤ c ∧ c ≤ 90 then c + 32 else c

/-- JS String.prototype.toUpperCase restricted to the ASCII range. -/
def charToUpper (c : Nat) : Nat := if 97 ≤ c ∧ c ≤ 122 then c - 32 else c

def strToLower (s : Str) : Str := s.map charToLower

def strToUpper (s : Str) : Str := s.map charToUpper

/-- JS String.prototype.split with a one-character separator: the list
of (possibly empty) chunks between occurrences of `c`. -/
def splitOnChar (c : Nat) : Str → List Str
  | [] => [[]]
  | x :: xs =>
    if x = c then [] :: splitOnChar c xs
    else
      match splitOnChar c xs with
      | [] => [[x]]
      | y :: ys => (x :: y) :: ys

/-- JS Array.prototype.join with a one-character separator. -/
def joinChar (c : Nat) : List Str → Str
  | [] => []
  | [s] => s
  | s :: rest => s ++ c :: joinChar c rest

/-- parseDataSourceId (src/klineData/dataSource.ts): split the id on
'-' (code point 45); fewer than two segments is a hard error
(`Invalid data source ID format`); the first segment is the source and
the remaining segments re-joined with '-' and upper-cased are the
symbol. -/
def parseDataSourceId (id : Str) : Except String (Str × Str) :=
  match splitOnChar 45 id with
  | p0 :: p1 :: rest => .ok (p0, strToUpper (joinChar 45 (p1 :: rest)))
  | _ => .error "Invalid data source ID format"

/-- buildDataSourceId (src/klineData/dataSource.ts): lower-case both
parts and join them with '-'. -/
def buildDataSourceId (source symbol : Str) : Str :=
  strToLower source ++ 45 :: strToLower symbol

theorem splitOnChar_ne_nil (c : Nat) (s : Str) : splitOnChar c s ≠ [] := by
  induction s with
  | nil => simp [splitOnChar]
  | cons x xs ih =>
    unfold splitOnChar
    split_ifs
    · simp
    · cases h : splitOnChar c xs with
      | nil => simp
      | cons y ys => simp

theorem splitOnChar_not_mem {c : Nat} {s : Str} (h : c ∉ s) :
    splitOnChar c s = [s] := by
  induction s with
  | nil => simp [splitOnChar]
  | cons x xs ih =>
    have hx : x ≠ c := fun he => h (he ▸ List.mem_cons_self x xs)
    have hxs : c ∉ xs := fun hm => h (List.mem_cons_of_mem x hm)
    unfold splitOnChar
    rw [if_neg hx, ih hxs]

theorem splitOnChar_append {c : Nat} {a b : Str} (h : c ∉ a) :
    splitOnChar c (a ++ c :: b) = a :: splitOnChar c b := by
  induction a with
  | nil => simp [splitOnChar]
  | cons x xs ih =>
    have hx : x ≠ c := fun he => h (he ▸ List.mem_cons_self x xs)
    have hxs : c ∉ xs := fun hm => h (List.mem_cons_of_mem x hm)
    have heq := ih hxs
    show splitOnChar c (x :: (xs ++ c :: b)) = (x :: xs) :: splitOnChar c b
    rw [splitOnChar, if_neg hx, heq]

theorem charToLower_ne_45 {x : Nat} (h : x ≠ 45) : charToLower x ≠ 45 := by
  unfold charToLower
  split_ifs <;> omega

theorem strToLower_not_mem_45 {s : Str} (h : (45 : Nat) ∉ s) :
    (45 : Nat) ∉ strToLower s := by
  intro hm
  rcases List.mem_map.mp hm with ⟨x, hx, he⟩
  exact charToLower_ne_45 (fun hx45 => h (hx45 ▸ hx)) he

theorem charToUpper_charToLower (c : Nat) :
    charToUpper (charToLower c) = charToUpper c := by
  unfold charToUpper charToLower
  split_ifs <;> omega

theorem strToUpper_strToLower (s : Str) :
    strToUpper (strToLower s) = strToUpper s := by
  unfold strToUpper strToLower
  rw [List.map_map]
  exact List.map_congr_left (fun c _ => charToUpper_charToLower c)


/-- C6, counterexample: parseDataSourceId is not an exact inverse of
buildDataSourceId — building from source "binance" and symbol "btc"
and parsing back yields the symbol upper-cased ("BTC"), not the
original "btc". -/
theorem parseId_buildId_not_exact_roundtrip :
    parseDataSourceId (buildDataSourceId (str "binance") (str "btc")) ≠
      Except.ok (str "binance", str "btc") := by decide

/-- C6, amended: for every source and symbol containing no delimiter
'-', parsing the built id yields the lower-cased source and the
upper-cased symbol (a round trip exactly up to these case
normalizations, hence exact only for already-lowercase sources and
already-uppercase symbols); and every id with fewer than two
'-'-separated segments fails to parse with the invalid-format
error. -/
theorem parseId_buildId_roundtrip_up_to_case :
    (∀ source symbol : Str, (45 : Nat) ∉ source → (45 : Nat) ∉ symbol →
      parseDataSourceId (buildDataSourceId source symbol) =
        Except.ok (strToLower source, strToUpper symbol)) ∧
    (∀ id : Str, (splitOnChar 45 id).length < 2 →
      parseDataSourceId id = Except.error "Invalid data source ID format") := by
  constructor
  · intro source symbol hs hsym
    unfold buildDataSourceId parseDataSourceId
    rw [splitOnChar_append (strToLower_not_mem_45 hs),
        splitOnChar_not_mem (strToLower_not_mem_45 hsym)]
    simp [joinChar, strToUpper_strToLower]
  · intro id hlen
    unfold parseDataSourceId
    cases h : splitOnChar 45 id with
    | nil => rfl
    | cons p rest =>
      cases rest with
      | nil => rfl
      | cons p1 r2 =>
        rw [h] at hlen
        simp at hlen
        omega

theorem parseId_buildId_roundtrip_up_to_case_witness :
    parseDataSourceId (buildDataSourceId (str "Binance") (str "btc")) =
      Except.ok (strToLower (str "Binance"), strToUpper (str "btc")) ∧
    parseDataSourceId (str "binance") =
      Except.error "Invalid data source ID format" :=
  ⟨parseId_buildId_roundtrip_up_to_case.1 (str "Binance") (str "btc")
      (by decide) (by decide),
   parseId_buildId_roundtrip_up_to_case.2 (str "binance") (by decide)⟩

/-- A candle with the given time and zero prices (prices are inert
payload; used for concrete instances). -/
def candleAt (t : Int) : KlineCandle := ⟨t, 0, 0, 0, 0⟩

/-- Math.min over a non-empty spread argument list (the source always
guards for non-emptiness before calling it; the empty default is
arbitrary). -/
def intListMin : List Int → Int
  | [] => 0
  | t :: rest => rest.foldl min t

/-- Math.max over a non-empty spread argument list. -/
def intListMax : List Int → Int
  | [] => 0
  | t :: rest => rest.foldl max t

/-- Insertion step of the numeric sort. -/
def insertInt (x : Int) : List Int → List Int
  | [] => [x]
  | y :: ys => if x < y then x :: y :: ys else y :: insertInt x ys

/-- JS Array.prototype.sort((a, b) => a - b) on a list of numbers:
any sorting algorithm produces the same list since duplicate integers
are indistinguishable. -/
def intSort (l : List Int) : List Int := l.foldr insertInt []

/-- The prefix/suffix gaps of KlineManager.checkDataCoverage: a gap
before the earliest known candle and one after the latest. -/
def edgeGaps (candles : List KlineCandle) (startTime endTime : Int) :
    List (Int × Int) :=
  (if startTime < intListMin (candles.map (fun c => c.time)) then
    [(startTime, min (intListMin (candles.map (fun c => c.time)) - 1) endTime)]
  else []) ++
  (if intListMax (candles.map (fun c => c.time)) < endTime then
    [(max (intListMax (candles.map (fun c => c.time)) + 1) startTime, endTime)]
  else [])

/-- The known times sorted ascending and restricted to the requested
window (the relevantTimes of checkDataCoverage). -/
def relevantTimesOf (candles : List KlineCandle) (startTime endTime : Int) :
    List Int :=
  (intSort (candles.map (fun c => c.time))).filter
    (fun t => decide (startTime ≤ t ∧ t ≤ endTime))

/-- Math.ceil((endTime - startTime) / timeframeSeconds) as exact
integer arithmetic (the divisor is a positive constant). -/
def expectedCountOf (startTime endTime : Int) (tf : Timeframe) : Int :=
  (endTime - startTime + timeframeSeconds tf - 1) / timeframeSeconds tf

/-- The JS float comparison actualCount / expectedCount < 0.8 of
checkDataCoverage.  For positive expected counts the float comparison
agrees with the exact rational comparison 5·actual < 4·expected at
every feasible list length; for expected = 0 the quotient is NaN or
+Infinity and the comparison is false; for negative expected the
quotient is non-positive and the comparison is true. -/
def coverageRatioLt80 (actualCount : Nat) (expectedCount : Int) : Bool :=
  if 0 < expectedCount then decide (5 * (actualCount : Int) < 4 * expectedCount)
  else decide (expectedCount < 0)

/-- The internal-gap scan of checkDataCoverage: walk consecutive
sorted in-range times; where the spacing exceeds maxGap, emit
(prev + period, next - period) provided that start is strictly below
that end. -/
def internalGapsLoop (ts : List Int) (P maxGap : Int) : List (Int × Int) :=
  match ts with
  | a :: b :: rest =>
    (if maxGap < b - a ∧ a + P < b - P then [(a + P, b - P)] else []) ++
      internalGapsLoop (b :: rest) P maxGap
  | _ => []

/-- KlineManager.checkDataCoverage.  The source accumulates the edge
gaps before the ratio test and discards them by returning a fresh
single-element list when the ratio is below 0.8; the pure reordering
here is observation-identical. -/
def checkDataCoverage (candles : List KlineCandle) (startTime endTime : Int)
    (tf : Timeframe) : Bool × List (Int × Int) :=
  if candles = [] then (true, [(startTime, endTime)])
  else if coverageRatioLt80 (relevantTimesOf candles startTime endTime).length
      (expectedCountOf startTime endTime tf) then
    (true, [(startTime, endTime)])
  else
    (decide (0 < (edgeGaps candles startTime endTime ++
        internalGapsLoop (relevantTimesOf candles startTime endTime)
          (timeframeSeconds tf) (timeframeSeconds tf * 2)).length),
     edgeGaps candles startTime endTime ++
       internalGapsLoop (relevantTimesOf candles startTime endTime)
         (timeframeSeconds tf) (timeframeSeconds tf * 2))

/-- Declarative form of the internal-gap scan: one gap per adjacent
pair of in-range times spaced more than twice the period apart. -/
def internalGapsSpec (ts : List Int) (P : Int) : List (Int × Int) :=
  (ts.zip ts.tail).filterMap
    (fun pr => if 2 * P < pr.2 - pr.1 then some (pr.1 + P, pr.2 - P) else none)

theorem internalGapsLoop_eq_spec (ts : List Int) (P : Int) :
    internalGapsLoop ts P (P * 2) = internalGapsSpec ts P := by
  induction ts with
  | nil => rfl
  | cons a rest ih =>
    cases rest with
    | nil => rfl
    | cons b r2 =>
      rw [show internalGapsLoop (a :: b :: r2) P (P * 2) =
        (if P * 2 < b - a ∧ a + P < b - P then [(a + P, b - P)] else []) ++
          internalGapsLoop (b :: r2) P (P * 2) from rfl, ih]
      by_cases hgap : 2 * P < b - a
      · rw [if_pos ⟨by omega, by omega⟩]
        simp [internalGapsSpec, hgap]
      · rw [if_neg (by omega)]
        simp [internalGapsSpec, hgap]

/-- C3: whenever the in-window coverage ratio is below 0.8 (and there
is at least one known candle), the analyzer reports exactly the single
full-range gap [start, end], discarding any edge gaps; in particular a
window with one known candle at each endpoint and a width of 100
periods yields the single full-range gap, not two edge gaps. -/
theorem coverage_low_ratio_single_full_gap :
    (∀ (candles : List KlineCandle) (startTime endTime : Int) (tf : Timeframe),
      candles ≠ [] →
      coverageRatioLt80 (relevantTimesOf candles startTime endTime).length
        (expectedCountOf startTime endTime tf) = true →
      checkDataCoverage candles startTime endTime tf =
        (true, [(startTime, endTime)])) ∧
    (∀ tf : Timeframe,
      checkDataCoverage [candleAt 0, candleAt (100 * timeframeSeconds tf)]
        0 (100 * timeframeSeconds tf) tf =
        (true, [(0, 100 * timeframeSeconds tf)])) := by
  constructor
  · intro candles startTime endTime tf h hr
    simp [checkDataCoverage, h, hr]
  · intro tf
    cases tf <;> decide

theorem coverage_low_ratio_single_full_gap_witness :
    checkDataCoverage [candleAt 0] 0 86400 Timeframe.h1 = (true, [(0, 86400)]) ∧
    checkDataCoverage [candleAt 0, candleAt (100 * timeframeSeconds .d1)]
      0 (100 * timeframeSeconds .d1) .d1 =
      (true, [(0, 100 * timeframeSeconds .d1)]) :=
  ⟨coverage_low_ratio_single_full_gap.1 [candleAt 0] 0 86400 .h1
      (by decide) (by decide),
   coverage_low_ratio_single_full_gap.2 .d1⟩

/-- C4: when the coverage ratio reaches the 0.8 threshold, the
reported gaps are the edge gaps followed by exactly one internal gap
(prev + period, next - period) per adjacent pair of sorted in-range
times spaced more than two periods apart (the start-not-exceeding-end
proviso holds automatically for such pairs); in particular candles at
0, P, 2P, 5P, 6P over the window [0, 6P] report the single internal
gap [3P, 4P]. -/
theorem coverage_internal_gaps_at_wide_spacings :
    (∀ (candles : List KlineCandle) (startTime endTime : Int) (tf : Timeframe),
      candles ≠ [] →
      coverageRatioLt80 (relevantTimesOf candles startTime endTime).length
        (expectedCountOf startTime endTime tf) = false →
      (checkDataCoverage candles startTime endTime tf).2 =
        edgeGaps candles startTime endTime ++
          internalGapsSpec (relevantTimesOf candles startTime endTime)
            (timeframeSeconds tf)) ∧
    (∀ tf : Timeframe,
      checkDataCoverage
        [candleAt 0, candleAt (timeframeSeconds tf),
         candleAt (2 * timeframeSeconds tf), candleAt (5 * timeframeSeconds tf),
         candleAt (6 * timeframeSeconds tf)] 0 (6 * timeframeSeconds tf) tf =
        (true, [(3 * timeframeSeconds tf, 4 * timeframeSeconds tf)])) := by
  constructor
  · intro candles startTime endTime tf h hr
    simp [checkDataCoverage, h, hr, internalGapsLoop_eq_spec]
  · intro tf
    cases tf <;> decide

theorem coverage_internal_gaps_at_wide_spacings_witness :
    (checkDataCoverage
        [candleAt 0, candleAt 3600, candleAt 7200, candleAt 10800] 0 10800
        Timeframe.h1).2 =
      edgeGaps [candleAt 0, candleAt 3600, candleAt 7200, candleAt 10800]
        0 10800 ++
        internalGapsSpec
          (relevantTimesOf [candleAt 0, candleAt 3600, candleAt 7200,
            candleAt 10800] 0 10800) (timeframeSeconds .h1) ∧
    checkDataCoverage
      [candleAt 0, candleAt (timeframeSeconds .h1),
       candleAt (2 * timeframeSeconds .h1), candleAt (5 * timeframeSeconds .h1),
       candleAt (6 * timeframeSeconds .h1)] 0 (6 * timeframeSeconds .h1) .h1 =
      (true, [(3 * timeframeSeconds .h1, 4 * timeframeSeconds .h1)]) :=
  ⟨coverage_internal_gaps_at_wide_spacings.1
      [candleAt 0, candleAt 3600, candleAt 7200, candleAt 10800] 0 10800 .h1
      (by decide) (by decide),
   coverage_internal_gaps_at_wide_spacings.2 .h1⟩

/-- A raw kline tuple from the Binance REST response; the adapter
consumes only the open time (ms) and the four price fields, so the
remaining tuple entries are not modelled (prices inert, see header). -/
structure BinanceKlineItem where
  openTimeMs : Int
  op : Int
  hi : Int
  lo : Int
  cl : Int
deriving DecidableEq

/-- binanceKlineToCandle: Math.floor(openTime / 1000) plus prices. -/
def binanceKlineToCandle (item : BinanceKlineItem) : KlineCandle :=
  ⟨item.openTimeMs / 1000, item.op, item.hi, item.lo, item.cl⟩

/-- timeframeToBinanceInterval (sources/binance.ts). -/
def timeframeToBinanceInterval : Timeframe → Str
  | .h1 => str "1h"
  | .h4 => str "4h"
  | .d1 => str "1d"
  | .w1 => str "1w"

/-- The timeframeSecondsMap lookup keyed by interval token, with the
source's `|| 24 * 60 * 60` fallback for unknown tokens. -/
def binanceIntervalSeconds (interval : Str) : Int :=
  if interval = str "1h" then 60 * 60
  else if interval = str "4h" then 4 * 60 * 60
  else if interval = str "1d" then 24 * 60 * 60
  else if interval = str "1w" then 7 * 24 * 60 * 60
  else 24 * 60 * 60

/-- Outcome of a paginated fetch: `result` is exactly the source's
return value or thrown error; `requests` counts the HTTP requests
issued and `pages` records the successfully consumed non-empty
response pages, in order (instrumentation fields — they do not alter
the computation). -/
structure FetchOutcome where
  result : Except String (List KlineCandle)
  requests : Nat
  pages : List (List BinanceKlineItem)
deriving DecidableEq

/-- The pagination loop of binanceDataSource.fetchKlineData
(src/klineData/sources/binance.ts; fetchBtcKlineData in the legacy
module is the identical loop with a fixed symbol).  `oracle` maps a
request's (startTime, endTime) query window to its HTTP outcome:
`.error` is a transport failure or non-2xx response (the thrown,
message-wrapped exception), `.ok` a parsed page.  `remaining` is
MAX_REQUESTS - requestCount, how many further requests the page-count
cap allows. -/
def fetchKlineLoop (oracle : Int → Int → Except String (List BinanceKlineItem))
    (P endTime : Int) : Nat → Int → List KlineCandle → FetchOutcome
  | 0, _, acc => ⟨.ok acc, 0, []⟩
  | remaining + 1, currentStartTime, acc =>
    if currentStartTime < endTime then
      match oracle currentStartTime (min (currentStartTime + 1000 * P) endTime) with
      | .error e => ⟨.error e, 1, []⟩
      | .ok data =>
        if data.length = 0 then ⟨.ok acc, 1, []⟩
        else
          if data.length < 1000 then
            ⟨.ok (acc ++ data.map binanceKlineToCandle), 1, [data]⟩
          else
            if endTime ≤ ((data.map binanceKlineToCandle).getLastD (candleAt 0)).time then
              ⟨.ok (acc ++ data.map binanceKlineToCandle), 1, [data]⟩
            else if endTime ≤ ((data.map binanceKlineToCandle).getLastD (candleAt 0)).time + P then
              ⟨.ok (acc ++ data.map binanceKlineToCandle), 1, [data]⟩
            else
              let r := fetchKlineLoop oracle P endTime remaining
                (((data.map binanceKlineToCandle).getLastD (candleAt 0)).time + P)
                (acc ++ data.map binanceKlineToCandle)
              ⟨r.result, r.requests + 1, data :: r.pages⟩
    else ⟨.ok acc, 0, []⟩

/-- binanceDataSource.fetchKlineData: map the timeframe to the API
interval token, derive the period seconds, then run the pagination
loop from the requested start with the MAX_REQUESTS = 10 budget and an
empty accumulator. -/
def fetchKlineData (oracle : Int → Int → Except String (List BinanceKlineItem))
    (tf : Timeframe) (startTime endTime : Int) : FetchOutcome :=
  fetchKlineLoop oracle (binanceIntervalSeconds (timeframeToBinanceInterval tf))
    endTime 10 startTime []

theorem fetchKlineLoop_requests_le
    (oracle : Int → Int → Except String (List BinanceKlineItem))
    (P endTime : Int) (remaining : Nat) (cur : Int) (acc : List KlineCandle) :
    (fetchKlineLoop oracle P endTime remaining cur acc).requests ≤ remaining := by
  induction remaining generalizing cur acc with
  | zero => simp [fetchKlineLoop]
  | succ n ih =>
    rw [fetchKlineLoop]
    split
    · split
      · simp
      · split_ifs <;> simp [ih]
    · simp

theorem fetchKlineLoop_ok_acc
    (oracle : Int → Int → Except String (List BinanceKlineItem))
    (P endTime : Int) (remaining : Nat) (cur : Int) (acc l : List KlineCandle) :
    (fetchKlineLoop oracle P endTime remaining cur acc).result = Except.ok l →
    l = acc ++ ((fetchKlineLoop oracle P endTime remaining cur acc).pages.map
      (fun page => page.map binanceKlineToCandle)).flatten := by
  induction remaining generalizing cur acc with
  | zero =>
    intro h
    simp [fetchKlineLoop] at h
    simp [fetchKlineLoop, h]
  | succ n ih =>
    rw [fetchKlineLoop]
    split
    · split
      · intro h
        simp at h
      · split_ifs <;> intro h <;> simp at h <;> simp [h]
        · exact (ih _ _ h).trans (by simp)
    · intro h
      simp at h
      simp [h]

/-- C8: for every timeframe and window the paginated fetch issues at
most MAX_REQUESTS = 10 HTTP requests regardless of the window's size
(the loop is total by construction), and whenever it returns
successfully the returned list is exactly the candles accumulated from
the pages consumed so far, in order. -/
theorem fetch_pagination_bounded
    (oracle : Int → Int → Except String (List BinanceKlineItem))
    (tf : Timeframe) (startTime endTime : Int) :
    (fetchKlineData oracle tf startTime endTime).requests ≤ 10 ∧
    ∀ l, (fetchKlineData oracle tf startTime endTime).result = Except.ok l →
      l = ((fetchKlineData oracle tf startTime endTime).pages.map
        (fun page => page.map binanceKlineToCandle)).flatten := by
  refine ⟨fetchKlineLoop_requests_le oracle _ endTime 10 startTime [], ?_⟩
  intro l h
  simpa using fetchKlineLoop_ok_acc oracle _ endTime 10 startTime [] l h

theorem fetch_pagination_bounded_witness :
    (fetchKlineData (fun _ _ => Except.ok []) Timeframe.d1 0 86400).requests ≤ 10 ∧
    ([] : List KlineCandle) =
      ((fetchKlineData (fun _ _ => Except.ok []) Timeframe.d1 0 86400).pages.map
        (fun page => page.map binanceKlineToCandle)).flatten :=
  ⟨(fetch_pagination_bounded (fun _ _ => Except.ok []) .d1 0 86400).1,
   (fetch_pagination_bounded (fun _ _ => Except.ok []) .d1 0 86400).2 []
     (by decide)⟩

/-- Little-endian base-10 digits with an explicit structural fuel
(`fuel` at least `n` suffices), so that concrete file names evaluate
inside the kernel. -/
def natDigitsAux : Nat → Nat → List Nat
  | 0, _ => []
  | _ + 1, 0 => []
  | fuel + 1, n + 1 => ((n + 1) % 10) :: natDigitsAux fuel ((n + 1) / 10)

/-- Decimal digit string of a natural number (JS template literal
interpolation of a non-negative integer). -/
def natStr (n : Nat) : Str :=
  if n = 0 then [48] else (natDigitsAux n n).reverse.map (fun d => d + 48)

theorem natDigitsAux_eq_digits (fuel n : Nat) (h : n ≤ fuel) :
    natDigitsAux fuel n = Nat.digits 10 n := by
  induction fuel generalizing n with
  | zero =>
    have hn : n = 0 := by omega
    subst hn
    simp [natDigitsAux]
  | succ f ih =>
    cases n with
    | zero => simp [natDigitsAux]
    | succ m =>
      rw [show natDigitsAux (f + 1) (m + 1) =
          ((m + 1) % 10) :: natDigitsAux f ((m + 1) / 10) from rfl,
        ih ((m + 1) / 10) (by omega),
        Nat.digits_def' (b := 10) (by omega) (Nat.succ_pos m)]

/-- Decimal string of an integer, with a leading '-' (code point 45)
for negative values. -/
def intStr (z : Int) : Str :=
  if z < 0 then 45 :: natStr z.natAbs else natStr z.natAbs

/-- getFilename (fileStorage): kline_{timeframe}_{dataSourceId}_{year}.json
when a dataSourceId is supplied, else the backward-compatible
kline_{timeframe}_{year}.json. -/
def getFilename (tf : Timeframe) (year : Int) (dataSourceId : Option Str) : Str :=
  match dataSourceId with
  | some id => str "kline_" ++ tf.name ++ [95] ++ id ++ [95] ++ intStr year ++ str ".json"
  | none => str "kline_" ++ tf.name ++ [95] ++ intStr year ++ str ".json"

/-- The legacy single-file-per-timeframe name kline_{timeframe}.json. -/
def legacyFilename (tf : Timeframe) : Str := str "kline_" ++ tf.name ++ str ".json"

/-- The persisted directory: file name to optional content.  A file's
content is its candle list; `none` is a missing or malformed file (see
the header note on why the two are identified). -/
def Store := Str → Option (List KlineCandle)

/-- The empty directory. -/
def emptyStore : Store := fun _ => none

/-- Writing (creating or overwriting) one file. -/
def updateStore (S : Store) (name : Str) (content : List KlineCandle) : Store :=
  fun n => if n = name then some content else S n

/-- removeEntry with not-found errors swallowed: deleting a missing
file is a no-op. -/
def removeEntry (S : Store) (name : Str) : Store :=
  fun n => if n = name then none else S n

/-- The candle a JS Map keyed by time holds for key `t` after
inserting all of `l` in order: the last inserted wins. -/
def lookupTime (t : Int) : List KlineCandle → Option KlineCandle
  | [] => none
  | c :: rest =>
    match lookupTime t rest with
    | some c2 => some c2
    | none => if c.time = t then some c else none

/-- The value set of that JS Map: of several candles sharing a time,
only the last survives.  (The JS Map iterates in first-insertion key
order; since the engine always sorts the values by their — now
distinct — times right after, keeping the last occurrence in place is
observation-identical.) -/
def dedupKeepLast : List KlineCandle → List KlineCandle
  | [] => []
  | c :: rest =>
    if rest.any (fun c2 => c2.time == c.time) then dedupKeepLast rest
    else c :: dedupKeepLast rest

/-- Insertion step of the by-time sort. -/
def insertByTime (c : KlineCandle) : List KlineCandle → List KlineCandle
  | [] => [c]
  | x :: xs => if c.time < x.time then c :: x :: xs else x :: insertByTime c xs

/-- JS Array.prototype.sort((a, b) => timeA - timeB), as a stable
insertion sort (ES2019+ sort is stable; all lists the engine sorts
have pairwise distinct times anyway). -/
def sortByTime (l : List KlineCandle) : List KlineCandle := l.foldr insertByTime []

/-- Deduplicate by time (last wins) and sort ascending — the
Map-then-sort normalization both the reader and the merger perform. -/
def canonicalize (l : List KlineCandle) : List KlineCandle :=
  sortByTime (dedupKeepLast l)

/-- getYearsInRange (fileStorage): every calendar year from the year
of startTime through the year of endTime, inclusive. -/
def getYearsInRange (startTime endTime : Int) : List Int :=
  if getYearFromTimestamp startTime ≤ getYearFromTimestamp endTime then
    (List.range (getYearFromTimestamp endTime - getYearFromTimestamp startTime + 1).toNat).map
      (fun k => getYearFromTimestamp startTime + (k : Int))
  else []

/-- The shard-collection loop of readKlineDataFromFile: concatenate
the candle lists of the year files that exist and validate, in year
order. -/
def collectYears (S : Store) (tf : Timeframe) (dataSourceId : Option Str)
    (years : List Int) : List KlineCandle :=
  years.foldl (fun acc y => acc ++ ((S (getFilename tf y dataSourceId)).getD [])) []

/-- The tail of readKlineDataFromFile: collect the year shards,
return null when nothing was found, else the deduplicated,
time-sorted candles. -/
def readYears (S : Store) (tf : Timeframe) (dataSourceId : Option Str)
    (years : List Int) : Option (List KlineCandle) :=
  if collectYears S tf dataSourceId years = [] then none
  else some (canonicalize (collectYears S tf dataSourceId years))

/-- readKlineDataFromFile (fileStorage).  When either bound is absent,
the legacy single file is tried first and returned verbatim if valid,
and the year list falls back to the current year (`currentYear` models
`new Date().getUTCFullYear()` at call time).  When both bounds are
present the legacy file is never consulted; note the JS `startTime &&
endTime` truthiness test: a 0 bound also falls back to the current
year.  Only the candle list is returned (`lastUpdated` is observed by
no claim). -/
def readKlineDataFromFile (S : Store) (tf : Timeframe)
    (startTime endTime : Option Int) (dataSourceId : Option Str)
    (currentYear : Int) : Option (List KlineCandle) :=
  match startTime, endTime with
  | some s, some e =>
    readYears S tf dataSourceId
      (if s ≠ 0 ∧ e ≠ 0 then getYearsInRange s e else [currentYear])
  | _, _ =>
    match S (legacyFilename tf) with
    | some legacy => some legacy
    | none => readYears S tf dataSourceId [currentYear]

/-- The year keys of the candlesByYear grouping map of
writeKlineDataToFile, in first-occurrence order. -/
def yearKeys (candles : List KlineCandle) : List Int :=
  candles.foldl (fun acc c =>
    if getYearFromTimestamp c.time ∈ acc then acc
    else acc ++ [getYearFromTimestamp c.time]) []

/-- writeKlineDataToFile (fileStorage): empty input is an immediate
no-op; otherwise group the candles by UTC year and overwrite each
touched year's shard file with its group sorted by time.  The
fire-and-forget Promise.all writes land on pairwise distinct files, so
sequencing them in key order is observation-identical. -/
def writeKlineDataToFile (S : Store) (tf : Timeframe)
    (candles : List KlineCandle) (dataSourceId : Option Str) : Store :=
  if candles = [] then S
  else
    (yearKeys candles).foldl (fun St y =>
      updateStore St (getFilename tf y dataSourceId)
        (sortByTime (candles.filter
          (fun c => getYearFromTimestamp c.time == y)))) S

/-- The years spanned by the new data in mergeKlineDataToFile: from
the year of the minimum new time through the year of the maximum. -/
def mergeYears (newCandles : List KlineCandle) : List Int :=
  getYearsInRange (intListMin (newCandles.map (fun c => c.time)))
    (intListMax (newCandles.map (fun c => c.time)))

/-- The existingCandles loop of mergeKlineDataToFile: one ranged read
per year (the range being that year's first and last second), skipping
years that read absent, concatenated in year order. -/
def mergeExisting (S : Store) (tf : Timeframe) (dataSourceId : Option Str)
    (currentYear : Int) (years : List Int) : List KlineCandle :=
  years.foldl (fun acc y =>
    acc ++ (readKlineDataFromFile S tf (some (yearStartSec y))
      (some (yearStartSec (y + 1) - 1)) dataSourceId currentYear).getD []) []

/-- The merged set of mergeKlineDataToFile: existing candles overlaid
by the new ones keyed by time (new wins on collision), sorted. -/
def mergedOf (S : Store) (tf : Timeframe) (dataSourceId : Option Str)
    (currentYear : Int) (newCandles : List KlineCandle) : List KlineCandle :=
  canonicalize
    (mergeExisting S tf dataSourceId currentYear (mergeYears newCandles) ++
      newCandles)

/-- mergeKlineDataToFile (fileStorage): empty input is an immediate
no-op; otherwise read the existing candles of exactly the years
spanned by the new data, overlay the new candles over them keyed by
time (new wins), sort, and write the merged set back. -/
def mergeKlineDataToFile (S : Store) (tf : Timeframe)
    (newCandles : List KlineCandle) (dataSourceId : Option Str)
    (currentYear : Int) : Store :=
  if newCandles = [] then S
  else
    writeKlineDataToFile S tf
      (mergedOf S tf dataSourceId currentYear newCandles) dataSourceId

/-- The fixed year sweep 2000..2100 of clearKlineDataFile. -/
def yearRange2000to2100 : List Int :=
  (List.range 101).map (fun k => 2000 + (k : Int))

/-- clearKlineDataFile (fileStorage): delete the legacy file and the
year files 2000..2100 for the given timeframe and (optional)
dataSourceId, ignoring not-found errors throughout. -/
def clearKlineDataFile (S : Store) (tf : Timeframe)
    (dataSourceId : Option Str) : Store :=
  yearRange2000to2100.foldl
    (fun St y => removeEntry St (getFilename tf y dataSourceId))
    (removeEntry S (legacyFilename tf))

/-- storage.clearKlineData: forwards only the timeframe —
clearKlineDataFile receives no dataSourceId. -/
def clearKlineData (S : Store) (tf : Timeframe) : Store :=
  clearKlineDataFile S tf none

/-- KlineManager.clearCache: delegates to clearKlineData. -/
def clearCache (S : Store) (tf : Timeframe) : Store := clearKlineData S tf

/-- C10: writing or merging an empty candle list returns immediately,
leaving the directory the very same map — no shard file is created,
modified or deleted, so every previously stored candle is still
readable unchanged. -/
theorem write_merge_empty_noop (S : Store) (tf : Timeframe)
    (dataSourceId : Option Str) (currentYear : Int) :
    writeKlineDataToFile S tf [] dataSourceId = S ∧
    mergeKlineDataToFile S tf [] dataSourceId currentYear = S :=
  ⟨rfl, rfl⟩

theorem collectYears_eq_nil {S : Store} {tf : Timeframe} {id : Option Str}
    {years : List Int} (h : ∀ y ∈ years, S (getFilename tf y id) = none) :
    collectYears S tf id years = [] := by
  unfold collectYears
  have aux : ∀ (ys : List Int) (acc : List KlineCandle),
      (∀ y ∈ ys, S (getFilename tf y id) = none) →
      ys.foldl (fun acc y => acc ++ ((S (getFilename tf y id)).getD [])) acc = acc := by
    intro ys
    induction ys with
    | nil => intro acc _; rfl
    | cons y rest ih =>
      intro acc hall
      rw [List.foldl_cons, hall y (List.mem_cons_self y rest)]
      exact ih (acc ++ (Option.getD none [])) (fun z hz => hall z (List.mem_cons_of_mem y hz)) |>.trans (by simp)
  exact aux years [] h

/-- C7, counterexample: a ranged read never falls back to the legacy
file — with only kline_1D.json present (holding one candle) and a
window supplied, the read reports absent instead of returning the
legacy candles. -/
theorem read_with_window_ignores_legacy :
    readKlineDataFromFile
      (updateStore emptyStore (legacyFilename .d1) [candleAt 1704067200])
      .d1 (some 1704067200) (some 1704153600) (some (str "binance-btc")) 2026 =
      none := by decide

/-- C7, amended: the legacy single-file fallback operates only when a
range bound is omitted — such a read returns the legacy file's candles
verbatim whenever the file is present and valid; a read with both
(truthy) bounds supplied never consults the legacy file, and if no
year shard file exists for the window it reports absent even when the
legacy file is present. -/
theorem legacy_fallback_only_without_range :
    (∀ (S : Store) (tf : Timeframe) (id : Option Str) (cy : Int)
      (l : List KlineCandle), S (legacyFilename tf) = some l →
      readKlineDataFromFile S tf none none id cy = some l) ∧
    (∀ (S : Store) (tf : Timeframe) (id : Option Str) (cy s e : Int),
      s ≠ 0 → e ≠ 0 →
      (∀ y ∈ getYearsInRange s e, S (getFilename tf y id) = none) →
      readKlineDataFromFile S tf (some s) (some e) id cy = none) := by
  constructor
  · intro S tf id cy l hleg
    unfold readKlineDataFromFile
    rw [hleg]
  · intro S tf id cy s e hs he hnone
    have hc : s ≠ 0 ∧ e ≠ 0 := ⟨hs, he⟩
    show readYears S tf id (if s ≠ 0 ∧ e ≠ 0 then getYearsInRange s e else [cy]) =
      none
    rw [if_pos hc]
    unfold readYears
    rw [if_pos (collectYears_eq_nil hnone)]

theorem legacy_fallback_only_without_range_witness :
    readKlineDataFromFile
      (updateStore emptyStore (legacyFilename .d1) [candleAt 1704067200])
      .d1 none none (some (str "binance-btc")) 2026 =
      some [candleAt 1704067200] ∧
    readKlineDataFromFile
      (updateStore emptyStore (legacyFilename .d1) [candleAt 1704067200])
      .d1 (some 1704067200) (some 1704153600) (some (str "binance-btc")) 2026 =
      none :=
  ⟨legacy_fallback_only_without_range.1
      (updateStore emptyStore (legacyFilename .d1) [candleAt 1704067200])
      .d1 (some (str "binance-btc")) 2026 [candleAt 1704067200] (by decide),
   legacy_fallback_only_without_range.2
      (updateStore emptyStore (legacyFilename .d1) [candleAt 1704067200])
      .d1 (some (str "binance-btc")) 2026 1704067200 1704153600
      (by decide) (by decide) (by decide)⟩

/-- C2: the code at the failing input — clearCache forwards no
dataSourceId, so the sweep removes only kline_{tf}_{year}.json names
(plus the legacy file); the shard kline_1D_binance-btc_2024.json
survives clearCache('1D') untouched, and a subsequent ranged read for
that timeframe and data-source id still returns its candles instead of
finding no shard files. -/
theorem clearCache_leaves_dataSource_shards :
    (clearCache (updateStore emptyStore
        (getFilename .d1 2024 (some (str "binance-btc"))) [candleAt 1704067200])
        .d1)
      (getFilename .d1 2024 (some (str "binance-btc"))) =
      some [candleAt 1704067200] ∧
    readKlineDataFromFile
      (clearCache (updateStore emptyStore
        (getFilename .d1 2024 (some (str "binance-btc"))) [candleAt 1704067200])
        .d1)
      .d1 (some 1704067200) (some 1704153600) (some (str "binance-btc")) 2026 =
      some [candleAt 1704067200] := by decide

/-- KlineManager.filterCandlesByTimeRange: keep candles with
startTime ≤ time ≤ endTime. -/
def filterCandlesByTimeRange (candles : List KlineCandle)
    (startTime endTime : Int) : List KlineCandle :=
  candles.filter (fun c => decide (startTime ≤ c.time ∧ c.time ≤ endTime))

/-- The gap-fill loop of getKlineData: fetch each missing range in
order and concatenate the returned candles; the loop has no try/catch,
so the first thrown fetch error aborts the whole call. -/
def fetchGaps (fetch : Int → Int → Except String (List KlineCandle)) :
    List (Int × Int) → Except String (List KlineCandle)
  | [] => .ok []
  | (s, e) :: rest =>
    match fetch s e with
    | .error er => .error er
    | .ok cs =>
      match fetchGaps fetch rest with
      | .error er => .error er
      | .ok more => .ok (cs ++ more)

/-- KlineManager.fetchAndStore: fetch the full range, write the
fetched candles, and return them (unfiltered). -/
def fetchAndStore (S : Store)
    (fetch : Int → Int → Except String (List KlineCandle)) (tf : Timeframe)
    (startTime endTime : Int) (dataSourceId : Str) :
    Except String (List KlineCandle × Store) :=
  match fetch startTime endTime with
  | .error e => .error e
  | .ok data => .ok (data, writeKlineDataToFile S tf data (some dataSourceId))

/-- KlineManager.getKlineData.  `fetch` is the oracle for
fetchKlineDataBySource(dataSourceId, {timeframe, startTime, endTime})
keyed by the requested range (the timeframe and id are fixed within
one call); the result pairs the candle list handed to the caller with
the resulting directory state. -/
def getKlineData (S : Store)
    (fetch : Int → Int → Except String (List KlineCandle)) (tf : Timeframe)
    (startTime endTime : Int) (dataSourceId : Str) (currentYear : Int) :
    Except String (List KlineCandle × Store) :=
  match readKlineDataFromFile S tf (some startTime) (some endTime)
      (some dataSourceId) currentYear with
  | none => fetchAndStore S fetch tf startTime endTime dataSourceId
  | some stored =>
    if stored = [] then fetchAndStore S fetch tf startTime endTime dataSourceId
    else if (checkDataCoverage stored startTime endTime tf).1 then
      match fetchGaps fetch (checkDataCoverage stored startTime endTime tf).2 with
      | .error e => .error e
      | .ok fetchedCandles =>
        if fetchedCandles = [] then
          .ok (filterCandlesByTimeRange stored startTime endTime, S)
        else
          match readKlineDataFromFile
              (mergeKlineDataToFile S tf fetchedCandles (some dataSourceId) currentYear)
              tf (some startTime) (some endTime) (some dataSourceId) currentYear with
          | some updated =>
            .ok (filterCandlesByTimeRange updated startTime endTime,
              mergeKlineDataToFile S tf fetchedCandles (some dataSourceId) currentYear)
          | none =>
            .ok (filterCandlesByTimeRange stored startTime endTime,
              mergeKlineDataToFile S tf fetchedCandles (some dataSourceId) currentYear)
    else .ok (filterCandlesByTimeRange stored startTime endTime, S)

/-- A directory holding one shard, kline_1D_binance-btc_2024.json,
with the daily candles of 2024-01-01 through 2024-01-03. -/
def klineStoreJan2024 : Store :=
  updateStore emptyStore (getFilename .d1 2024 (some (str "binance-btc")))
    [candleAt 1704067200, candleAt 1704153600, candleAt 1704240000]

/-- C1: the code at the failing input — the store holds three January
2024 daily candles (first conjunct: the ranged read finds them), the
request spans 2024-01-01 through 2024-01-30 so coverage is
insufficient and a gap-fill is attempted, the remote fetch throws, and
the error propagates out of getKlineData instead of degrading to the
stored stale candles filtered to the window. -/
theorem gapfill_fetch_error_propagates :
    readKlineDataFromFile klineStoreJan2024 .d1 (some 1704067200)
        (some 1706572800) (some (str "binance-btc")) 2026 =
      some [candleAt 1704067200, candleAt 1704153600, candleAt 1704240000] ∧
    getKlineData klineStoreJan2024
      (fun _ _ => Except.error "Binance API error: 500 Internal Server Error")
      .d1 1704067200 1706572800 (str "binance-btc") 2026 =
      Except.error "Binance API error: 500 Internal Server Error" :=
  ⟨rfl, rfl⟩

/-- C5, counterexample: on an empty store the fetched list is returned
as-is — here the fetcher answers the full-range fetch with a single
candle lying past the window's end (second conjunct) and getKlineData
hands exactly that list to the caller, unfiltered. -/
theorem empty_store_fetch_returns_unfiltered :
    (getKlineData emptyStore (fun _ _ => Except.ok [candleAt 1706659200]) .d1
        1704067200 1706572800 (str "binance-btc") 2026).map Prod.fst =
      Except.ok [candleAt 1706659200] ∧
    (1706572800 : Int) < 1706659200 :=
  ⟨rfl, by decide⟩

/-- C5, amended: when the local store yields no candles for the
window, the manager fetches the full requested range, writes the
fetched candles to the store, and returns the fetched list as-is —
the empty-store path performs no filtering to [start, end], so candles
outside the window, if the fetcher returns any, are passed through to
the caller. -/
theorem empty_store_fetches_writes_returns_fetched
    (S : Store) (fetch : Int → Int → Except String (List KlineCandle))
    (tf : Timeframe) (startTime endTime : Int) (id : Str) (cy : Int)
    (cs : List KlineCandle)
    (hread : readKlineDataFromFile S tf (some startTime) (some endTime)
        (some id) cy = none ∨
      readKlineDataFromFile S tf (some startTime) (some endTime)
        (some id) cy = some [])
    (hfetch : fetch startTime endTime = Except.ok cs) :
    getKlineData S fetch tf startTime endTime id cy =
      Except.ok (cs, writeKlineDataToFile S tf cs (some id)) := by
  unfold getKlineData
  rcases hread with h | h <;> rw [h] <;> simp [fetchAndStore, hfetch]

theorem empty_store_fetches_writes_returns_fetched_witness :
    getKlineData emptyStore (fun _ _ => Except.ok [candleAt 1704067200]) .d1
      1704067200 1706572800 (str "binance-btc") 2026 =
      Except.ok ([candleAt 1704067200],
        writeKlineDataToFile emptyStore .d1 [candleAt 1704067200]
          (some (str "binance-btc"))) :=
  empty_store_fetches_writes_returns_fetched emptyStore
    (fun _ _ => Except.ok [candleAt 1704067200]) .d1 1704067200 1706572800
    (str "binance-btc") 2026 [candleAt 1704067200] (Or.inl rfl) rfl

theorem lookupTime_append (t : Int) (a b : List KlineCandle) :
    lookupTime t (a ++ b) =
      match lookupTime t b with
      | some c => some c
      | none => lookupTime t a := by
  induction a with
  | nil => cases h : lookupTime t b <;> simp [h, lookupTime]
  | cons c rest ih =>
    rw [List.cons_append, lookupTime, ih, lookupTime]
    cases h : lookupTime t b <;> cases h2 : lookupTime t rest <;> simp

theorem lookupTime_eq_none_iff (t : Int) (l : List KlineCandle) :
    lookupTime t l = none ↔ ∀ c ∈ l, c.time ≠ t := by
  induction l with
  | nil => simp [lookupTime]
  | cons c rest ih =>
    rw [lookupTime]
    cases h : lookupTime t rest with
    | some c2 =>
      constructor
      · intro he
        exact Option.noConfusion he
      · intro hall
        have hn : lookupTime t rest = none :=
          ih.mpr (fun c3 h3 => hall c3 (List.mem_cons_of_mem c h3))
        rw [hn] at h
        exact Option.noConfusion h
    | none =>
      have hrest : ∀ c3 ∈ rest, c3.time ≠ t := ih.mp h
      by_cases hc : c.time = t
      · rw [if_pos hc]
        constructor
        · intro he
          exact Option.noConfusion he
        · intro hall
          exact absurd hc (hall c (List.mem_cons_self c rest))
      · rw [if_neg hc]
        constructor
        · intro _ c3 h3
          rcases List.mem_cons.mp h3 with he | hm
          · rw [he]
            exact hc
          · exact hrest c3 hm
        · intro _
          rfl

theorem lookupTime_some (t : Int) {l : List KlineCandle} {c : KlineCandle}
    (h : lookupTime t l = some c) : c.time = t ∧ c ∈ l := by
  induction l with
  | nil => exact Option.noConfusion h
  | cons c0 rest ih =>
    rw [lookupTime] at h
    cases h2 : lookupTime t rest with
    | some c2 =>
      rw [h2] at h
      obtain ⟨ht, hm⟩ := ih (h2.trans h)
      exact ⟨ht, List.mem_cons_of_mem c0 hm⟩
    | none =>
      rw [h2] at h
      by_cases hc : c0.time = t
      · rw [if_pos hc] at h
        obtain rfl : c0 = c := Option.some.inj h
        exact ⟨hc, List.mem_cons_self c0 rest⟩
      · rw [if_neg hc] at h
        exact Option.noConfusion h

/-- The times of a candle list, as keys. -/
abbrev timesOf (l : List KlineCandle) : List Int := l.map (fun c => c.time)

theorem lookupTime_dedupKeepLast (t : Int) (l : List KlineCandle) :
    lookupTime t (dedupKeepLast l) = lookupTime t l := by
  induction l with
  | nil => rfl
  | cons c rest ih =>
    rw [dedupKeepLast]
    by_cases hdup : rest.any (fun c2 => c2.time == c.time)
    · rw [if_pos hdup, ih, lookupTime]
      cases h2 : lookupTime t rest with
      | some c2 => rfl
      | none =>
        by_cases hc : c.time = t
        · rcases List.any_eq_true.mp hdup with ⟨c2, hm2, he2⟩
          have : c2.time ≠ t := (lookupTime_eq_none_iff t rest).mp h2 c2 hm2
          have : c2.time = c.time := by simpa using he2
          omega
        · rw [if_neg hc]
    · rw [if_neg hdup, lookupTime, lookupTime, ih]

theorem dedupKeepLast_subset {c : KlineCandle} {l : List KlineCandle}
    (h : c ∈ dedupKeepLast l) : c ∈ l := by
  induction l with
  | nil => exact absurd h (by simp [dedupKeepLast])
  | cons c0 rest ih =>
    rw [dedupKeepLast] at h
    by_cases hdup : rest.any (fun c2 => c2.time == c0.time)
    · rw [if_pos hdup] at h
      exact List.mem_cons_of_mem c0 (ih h)
    · rw [if_neg hdup] at h
      rcases List.mem_cons.mp h with he | hm
      · rw [he]
        exact List.mem_cons_self c0 rest
      · exact List.mem_cons_of_mem c0 (ih hm)

theorem dedupKeepLast_times_nodup (l : List KlineCandle) :
    (timesOf (dedupKeepLast l)).Nodup := by
  induction l with
  | nil => simp [dedupKeepLast, timesOf]
  | cons c rest ih =>
    rw [dedupKeepLast]
    by_cases hdup : rest.any (fun c2 => c2.time == c.time)
    · rw [if_pos hdup]
      exact ih
    · rw [if_neg hdup]
      rw [timesOf, List.map_cons, List.nodup_cons]
      refine ⟨?_, ih⟩
      intro hmem
      rcases List.mem_map.mp hmem with ⟨c2, hm2, he2⟩
      have hm2' := dedupKeepLast_subset hm2
      have : ¬ (rest.any (fun c2 => c2.time == c.time) = true) := hdup
      rw [List.any_eq_true] at this
      exact this ⟨c2, hm2', by simpa using he2⟩

theorem insertByTime_perm (c : KlineCandle) (l : List KlineCandle) :
    List.Perm (insertByTime c l) (c :: l) := by
  induction l with
  | nil => rfl
  | cons x xs ih =>
    rw [insertByTime]
    by_cases hlt : c.time < x.time
    · rw [if_pos hlt]
    · rw [if_neg hlt]
      exact (List.Perm.cons x ih).trans (List.Perm.swap c x xs)

theorem sortByTime_perm (l : List KlineCandle) :
    List.Perm (sortByTime l) l := by
  induction l with
  | nil => rfl
  | cons c rest ih =>
    exact (insertByTime_perm c (sortByTime rest)).trans (List.Perm.cons c ih)

theorem insertByTime_pairwise {c : KlineCandle} {l : List KlineCandle}
    (h : l.Pairwise (fun a b => a.time ≤ b.time)) :
    (insertByTime c l).Pairwise (fun a b => a.time ≤ b.time) := by
  induction l with
  | nil => simp [insertByTime]
  | cons x xs ih =>
    obtain ⟨hx, hxs⟩ := List.pairwise_cons.mp h
    rw [insertByTime]
    by_cases hlt : c.time < x.time
    · rw [if_pos hlt]
      refine List.pairwise_cons.mpr ⟨?_, h⟩
      intro b hb
      rcases List.mem_cons.mp hb with he | hm
      · rw [he]
        omega
      · have := hx b hm
        omega
    · rw [if_neg hlt]
      refine List.pairwise_cons.mpr ⟨?_, ih hxs⟩
      intro b hb
      have hb' : b ∈ c :: xs := (insertByTime_perm c xs).mem_iff.mp hb
      rcases List.mem_cons.mp hb' with he | hm
      · rw [he]
        omega
      · exact hx b hm

theorem sortByTime_sorted (l : List KlineCandle) :
    (sortByTime l).Pairwise (fun a b => a.time ≤ b.time) := by
  induction l with
  | nil => simp [sortByTime]
  | cons c rest ih => exact insertByTime_pairwise ih

theorem lookupTime_of_mem_nodup {l : List KlineCandle} {c : KlineCandle}
    {t : Int} (hnd : (timesOf l).Nodup) (hm : c ∈ l) (ht : c.time = t) :
    lookupTime t l = some c := by
  induction l with
  | nil => exact absurd hm (List.not_mem_nil c)
  | cons c0 rest ih =>
    rw [timesOf, List.map_cons, List.nodup_cons] at hnd
    rw [lookupTime]
    rcases List.mem_cons.mp hm with he | hmr
    · have hn : lookupTime t rest = none := by
        rw [lookupTime_eq_none_iff]
        intro c2 hm2 he2
        exact hnd.1 (List.mem_map.mpr ⟨c2, hm2, by rw [he2, ← he, ht]⟩)
      rw [hn, ← he, if_pos ht, he]
    · rw [ih hnd.2 hmr]

theorem lookupTime_eq_of_perm {l l' : List KlineCandle}
    (hp : List.Perm l l') (hnd : (timesOf l).Nodup) (t : Int) :
    lookupTime t l = lookupTime t l' := by
  cases h : lookupTime t l' with
  | none =>
    rw [lookupTime_eq_none_iff] at h ⊢
    intro c hm
    exact h c (hp.mem_iff.mp hm)
  | some c =>
    obtain ⟨ht, hm⟩ := lookupTime_some t h
    exact lookupTime_of_mem_nodup hnd (hp.mem_iff.mpr hm) ht

theorem canonicalize_times_nodup (l : List KlineCandle) :
    (timesOf (canonicalize l)).Nodup := by
  have hp : List.Perm (timesOf (canonicalize l)) (timesOf (dedupKeepLast l)) := by
    unfold timesOf canonicalize
    exact (sortByTime_perm (dedupKeepLast l)).map (fun c => c.time)
  exact hp.nodup_iff.mpr (dedupKeepLast_times_nodup l)

theorem lookupTime_canonicalize (t : Int) (l : List KlineCandle) :
    lookupTime t (canonicalize l) = lookupTime t l := by
  rw [← lookupTime_dedupKeepLast t l]
  exact lookupTime_eq_of_perm (sortByTime_perm (dedupKeepLast l))
    (canonicalize_times_nodup l) t

theorem canonicalize_sorted_strict (l : List KlineCandle) :
    (canonicalize l).Pairwise (fun a b => a.time < b.time) := by
  have h1 : (canonicalize l).Pairwise (fun a b => a.time ≤ b.time) :=
    sortByTime_sorted (dedupKeepLast l)
  have h2 : (canonicalize l).Pairwise (fun a b => a.time ≠ b.time) :=
    List.pairwise_map.mp (List.Nodup.pairwise_of_forall_ne
      (canonicalize_times_nodup l) (fun a _ b _ h => h)) |>.imp (fun h => h)
  exact (h1.and h2).imp (fun h => by omega)

theorem lookupTime_cons_ne {c : KlineCandle} {t : Int}
    (hne : c.time ≠ t) (l : List KlineCandle) :
    lookupTime t (c :: l) = lookupTime t l := by
  rw [lookupTime]
  cases h : lookupTime t l with
  | some c2 => rfl
  | none => rw [if_neg hne]

theorem lookupTime_head_sorted {c : KlineCandle} {l : List KlineCandle}
    (h : (c :: l).Pairwise (fun a b => a.time < b.time)) :
    lookupTime c.time (c :: l) = some c := by
  obtain ⟨hhead, _⟩ := List.pairwise_cons.mp h
  rw [lookupTime]
  have hn : lookupTime c.time l = none := by
    rw [lookupTime_eq_none_iff]
    intro c2 hm2
    have := hhead c2 hm2
    omega
  rw [hn, if_pos rfl]

theorem eq_of_sorted_lookup_eq :
    ∀ {l1 l2 : List KlineCandle},
      l1.Pairwise (fun a b => a.time < b.time) →
      l2.Pairwise (fun a b => a.time < b.time) →
      (∀ t, lookupTime t l1 = lookupTime t l2) → l1 = l2
  | [], [], _, _, _ => rfl
  | [], c2 :: r2, _, h2, hl => by
    have := hl c2.time
    rw [lookupTime_head_sorted h2] at this
    exact Option.noConfusion this
  | c1 :: r1, [], h1, _, hl => by
    have := hl c1.time
    rw [lookupTime_head_sorted h1] at this
    exact Option.noConfusion this
  | c1 :: r1, c2 :: r2, h1, h2, hl => by
    have hhead : c1 = c2 := by
      rcases lt_trichotomy c1.time c2.time with hlt | heq | hgt
      · have := hl c1.time
        rw [lookupTime_head_sorted h1, (lookupTime_eq_none_iff _ _).mpr ?_] at this
        · exact Option.noConfusion this
        · intro c hm
          rcases List.mem_cons.mp hm with he | hm2
          · rw [he]
            omega
          · have := (List.pairwise_cons.mp h2).1 c hm2
            omega
      · have := hl c1.time
        rw [lookupTime_head_sorted h1, heq, lookupTime_head_sorted h2] at this
        exact (Option.some.inj this).symm ▸ rfl
      · have := hl c2.time
        rw [lookupTime_head_sorted h2, (lookupTime_eq_none_iff _ _).mpr ?_] at this
        · exact Option.noConfusion this.symm
        · intro c hm
          rcases List.mem_cons.mp hm with he | hm2
          · rw [he]
            omega
          · have := (List.pairwise_cons.mp h1).1 c hm2
            omega
    subst hhead
    have htail : r1 = r2 := by
      refine eq_of_sorted_lookup_eq (List.pairwise_cons.mp h1).2
        (List.pairwise_cons.mp h2).2 ?_
      intro t
      by_cases ht : c1.time = t
      · subst ht
        rw [(lookupTime_eq_none_iff _ _).mpr, (lookupTime_eq_none_iff _ _).mpr]
        · intro c hm
          have := (List.pairwise_cons.mp h2).1 c hm
          omega
        · intro c hm
          have := (List.pairwise_cons.mp h1).1 c hm
          omega
      · have := hl t
        rwa [lookupTime_cons_ne ht r1, lookupTime_cons_ne ht r2] at this
    rw [htail]

theorem lookupTime_filter_year (w t : Int) (l : List KlineCandle) :
    lookupTime t (l.filter (fun c => getYearFromTimestamp c.time == w)) =
      if getYearFromTimestamp t = w then lookupTime t l else none := by
  induction l with
  | nil => simp [lookupTime]
  | cons c rest ih =>
    rw [List.filter_cons]
    by_cases hc : (getYearFromTimestamp c.time == w) = true
    · rw [if_pos hc, lookupTime, ih, lookupTime]
      by_cases hH : getYearFromTimestamp t = w
      · rw [if_pos hH, if_pos hH]
      · rw [if_neg hH, if_neg hH]
        have hne : c.time ≠ t := by
          intro he
          rw [he] at hc
          simp [hH] at hc
        rw [if_neg hne]
    · rw [if_neg hc, ih]
      by_cases hH : getYearFromTimestamp t = w
      · rw [if_pos hH, if_pos hH]
        have hne : c.time ≠ t := by
          intro he
          rw [he, hH] at hc
          simp at hc
        rw [lookupTime_cons_ne hne]
      · rw [if_neg hH, if_neg hH]

theorem dedupKeepLast_ne_nil {l : List KlineCandle} (h : l ≠ []) :
    dedupKeepLast l ≠ [] := by
  induction l with
  | nil => exact absurd rfl h
  | cons c rest ih =>
    rw [dedupKeepLast]
    by_cases hdup : rest.any (fun c2 => c2.time == c.time)
    · rw [if_pos hdup]
      apply ih
      intro he
      rw [he] at hdup
      simp at hdup
    · rw [if_neg hdup]
      simp

theorem canonicalize_ne_nil {l : List KlineCandle} (h : l ≠ []) :
    canonicalize l ≠ [] := by
  unfold canonicalize
  intro he
  have hlen := (sortByTime_perm (dedupKeepLast l)).length_eq
  rw [he] at hlen
  exact dedupKeepLast_ne_nil h (List.length_eq_zero.mp hlen.symm)

theorem yearKeys_aux_nodup (l : List KlineCandle) (acc : List Int)
    (h : acc.Nodup) :
    (l.foldl (fun acc c =>
      if getYearFromTimestamp c.time ∈ acc then acc
      else acc ++ [getYearFromTimestamp c.time]) acc).Nodup := by
  induction l generalizing acc with
  | nil => exact h
  | cons c rest ih =>
    rw [List.foldl_cons]
    by_cases hm : getYearFromTimestamp c.time ∈ acc
    · rw [if_pos hm]
      exact ih acc h
    · rw [if_neg hm]
      refine ih _ (List.Nodup.append h (List.nodup_singleton _) ?_)
      intro a ha hb
      simp at hb
      rw [hb] at ha
      exact hm ha

theorem yearKeys_nodup (l : List KlineCandle) : (yearKeys l).Nodup :=
  yearKeys_aux_nodup l [] (by simp)

theorem mem_yearKeys_aux (l : List KlineCandle) (acc : List Int) (y : Int) :
    (y ∈ l.foldl (fun acc c =>
      if getYearFromTimestamp c.time ∈ acc then acc
      else acc ++ [getYearFromTimestamp c.time]) acc) ↔
      y ∈ acc ∨ ∃ c ∈ l, getYearFromTimestamp c.time = y := by
  induction l generalizing acc with
  | nil => simp
  | cons c rest ih =>
    rw [List.foldl_cons]
    by_cases hm : getYearFromTimestamp c.time ∈ acc
    · rw [if_pos hm, ih]
      constructor
      · rintro (ha | ⟨c2, hm2, he2⟩)
        · exact Or.inl ha
        · exact Or.inr ⟨c2, List.mem_cons_of_mem c hm2, he2⟩
      · rintro (ha | ⟨c2, hm2, he2⟩)
        · exact Or.inl ha
        · rcases List.mem_cons.mp hm2 with he | hmr
          · subst he
            rw [he2] at hm
            exact Or.inl hm
          · exact Or.inr ⟨c2, hmr, he2⟩
    · rw [if_neg hm, ih]
      constructor
      · rintro (ha | ⟨c2, hm2, he2⟩)
        · rcases List.mem_append.mp ha with h1 | h1
          · exact Or.inl h1
          · simp at h1
            exact Or.inr ⟨c, List.mem_cons_self c rest, h1.symm⟩
        · exact Or.inr ⟨c2, List.mem_cons_of_mem c hm2, he2⟩
      · rintro (ha | ⟨c2, hm2, he2⟩)
        · exact Or.inl (List.mem_append.mpr (Or.inl ha))
        · rcases List.mem_cons.mp hm2 with he | hmr
          · subst he
            refine Or.inl (List.mem_append.mpr (Or.inr ?_))
            simp [he2]
          · exact Or.inr ⟨c2, hmr, he2⟩

theorem mem_yearKeys (l : List KlineCandle) (y : Int) :
    y ∈ yearKeys l ↔ ∃ c ∈ l, getYearFromTimestamp c.time = y := by
  rw [yearKeys, mem_yearKeys_aux]
  simp

theorem natStr_all_digits (n : Nat) : ∀ x ∈ natStr n, 48 ≤ x ∧ x ≤ 57 := by
  unfold natStr
  by_cases h : n = 0
  · rw [if_pos h]
    intro x hx
    simp at hx
    omega
  · rw [if_neg h]
    intro x hx
    rcases List.mem_map.mp hx with ⟨d, hd, he⟩
    rw [natDigitsAux_eq_digits n n le_rfl] at hd
    have hlt := Nat.digits_lt_base (by omega) (List.mem_reverse.mp hd)
    omega

theorem natStr_digits_ne_singleton48 {m : Nat} (hm : m ≠ 0)
    (h : (Nat.digits 10 m).reverse.map (fun d => d + 48) = [48]) : False := by
  have hlen : ((Nat.digits 10 m).reverse.map (fun d => d + 48)).length = 1 := by
    rw [h]
    rfl
  rw [List.length_map, List.length_reverse] at hlen
  rcases List.length_eq_one.mp hlen with ⟨d, hd⟩
  rw [hd] at h
  simp at h
  have hof := Nat.ofDigits_digits 10 m
  rw [hd, show d = 0 by omega] at hof
  simp [Nat.ofDigits] at hof
  exact hm hof.symm

theorem natStr_inj {n m : Nat} (h : natStr n = natStr m) : n = m := by
  unfold natStr at h
  rw [natDigitsAux_eq_digits n n le_rfl, natDigitsAux_eq_digits m m le_rfl] at h
  split_ifs at h with h1 h2 h2
  · omega
  · exact absurd h.symm (fun he => natStr_digits_ne_singleton48 h2 he)
  · exact absurd h (fun he => natStr_digits_ne_singleton48 h1 he)
  · have hrev : (Nat.digits 10 n).reverse = (Nat.digits 10 m).reverse := by
      have hinj : Function.Injective (fun d : Nat => d + 48) := by
        intro a b hab
        simp at hab
        omega
      exact List.map_injective_iff.mpr hinj h
    have hdig : Nat.digits 10 n = Nat.digits 10 m := List.reverse_injective hrev
    have hofn := Nat.ofDigits_digits 10 n
    have hofm := Nat.ofDigits_digits 10 m
    rw [hdig] at hofn
    omega

theorem natStr_head_digit (z : Nat) : ∀ x ∈ natStr z, x ≠ 45 := by
  intro x hx
  have := natStr_all_digits z x hx
  omega

theorem intStr_inj {z z2 : Int} (h : intStr z = intStr z2) : z = z2 := by
  unfold intStr at h
  split_ifs at h with h1 h2 h2
  · have heq := natStr_inj (List.cons_inj_right 45 |>.mp h)
    omega
  · have : (45 : Nat) ∈ natStr z2.natAbs := by
      rw [← h]
      exact List.mem_cons_self 45 _
    exact absurd rfl (natStr_head_digit z2.natAbs 45 this)
  · have : (45 : Nat) ∈ natStr z.natAbs := by
      rw [h]
      exact List.mem_cons_self 45 _
    exact absurd rfl (natStr_head_digit z.natAbs 45 this)
  · have heq := natStr_inj h
    omega

theorem getFilename_inj_year {tf : Timeframe} {id : Option Str} {y y2 : Int}
    (h : getFilename tf y id = getFilename tf y2 id) : y = y2 := by
  apply intStr_inj
  unfold getFilename at h
  cases id with
  | some i => exact List.append_cancel_left (List.append_cancel_right h)
  | none => exact List.append_cancel_left (List.append_cancel_right h)

theorem foldl_update_not_mem (S : Store) (f : Int → Str)
    (content : Int → List KlineCandle) (keys : List Int) (name : Str)
    (hn : ∀ y ∈ keys, name ≠ f y) :
    (keys.foldl (fun St y => updateStore St (f y) (content y)) S) name =
      S name := by
  induction keys generalizing S with
  | nil => rfl
  | cons k ks ih =>
    rw [List.foldl_cons, ih _ (fun y hy => hn y (List.mem_cons_of_mem k hy))]
    unfold updateStore
    rw [if_neg (hn k (List.mem_cons_self k ks))]

theorem foldl_update_mem (S : Store) (f : Int → Str)
    (content : Int → List KlineCandle)
    (hinj : ∀ a b, f a = f b → a = b)
    (keys : List Int) (hnd : keys.Nodup) (y : Int) (hy : y ∈ keys) :
    (keys.foldl (fun St y => updateStore St (f y) (content y)) S) (f y) =
      some (content y) := by
  induction keys generalizing S with
  | nil => exact absurd hy (List.not_mem_nil y)
  | cons k ks ih =>
    rw [List.foldl_cons]
    rcases List.mem_cons.mp hy with he | hm
    · subst he
      rw [foldl_update_not_mem _ f content ks (f y) ?_]
      · unfold updateStore
        rw [if_pos rfl]
      · intro y2 hy2 heq
        have : y = y2 := hinj y y2 heq
        rw [this] at hnd
        exact (List.nodup_cons.mp hnd).1 hy2
    · exact ih _ (List.nodup_cons.mp hnd).2 hm

/-- The shard year-consistency invariant: every candle a year file
holds belongs to that file's year.  Every store the engine's own
writes produce satisfies it; a store violating it is reachable only
from outside the engine. -/
def YearConsistent (S : Store) (tf : Timeframe) (id : Option Str) : Prop :=
  ∀ (y : Int) (l : List KlineCandle), S (getFilename tf y id) = some l →
    ∀ c ∈ l, getYearFromTimestamp c.time = y

theorem write_at_written {S : Store} {tf : Timeframe} {id : Option Str}
    {l : List KlineCandle} (hl : l ≠ []) {y : Int} (hy : y ∈ yearKeys l) :
    writeKlineDataToFile S tf l id (getFilename tf y id) =
      some (sortByTime (l.filter
        (fun c => getYearFromTimestamp c.time == y))) := by
  unfold writeKlineDataToFile
  rw [if_neg hl]
  exact foldl_update_mem S (fun y => getFilename tf y id) _
    (fun a b h => getFilename_inj_year h) (yearKeys l) (yearKeys_nodup l) y hy

theorem write_at_other {S : Store} {tf : Timeframe} {id : Option Str}
    {l : List KlineCandle} {name : Str}
    (hn : ∀ y ∈ yearKeys l, name ≠ getFilename tf y id) :
    writeKlineDataToFile S tf l id name = S name := by
  unfold writeKlineDataToFile
  by_cases hl : l = []
  · rw [if_pos hl]
  · rw [if_neg hl]
    exact foldl_update_not_mem S (fun y => getFilename tf y id) _
      (yearKeys l) name hn

theorem write_preserves_yearConsistent {S : Store} {tf : Timeframe}
    {id : Option Str} (hInv : YearConsistent S tf id)
    (l : List KlineCandle) :
    YearConsistent (writeKlineDataToFile S tf l id) tf id := by
  intro y l2 hl2 c hc
  by_cases hl : l = []
  · unfold writeKlineDataToFile at hl2
    rw [if_pos hl] at hl2
    exact hInv y l2 hl2 c hc
  · by_cases hy : y ∈ yearKeys l
    · rw [write_at_written hl hy] at hl2
      have he := Option.some.inj hl2
      rw [← he] at hc
      have hc2 : c ∈ l.filter (fun c => getYearFromTimestamp c.time == y) :=
        (sortByTime_perm _).mem_iff.mp hc
      have := (List.mem_filter.mp hc2).2
      simpa using this
    · rw [write_at_other ?_] at hl2
      · exact hInv y l2 hl2 c hc
      · intro y2 hy2 heq
        have : y = y2 := getFilename_inj_year heq
        rw [this] at hy
        exact hy hy2

theorem getYearsInRange_singleton (y : Int) :
    getYearsInRange (yearStartSec y) (yearStartSec (y + 1) - 1) = [y] := by
  unfold getYearsInRange
  rw [getYearFromTimestamp_yearStartSec, getYearFromTimestamp_yearEnd,
    if_pos le_rfl, show (y - y + 1).toNat = 1 by omega]
  simp [List.range_succ]

theorem mergeRead_eq (S : Store) (tf : Timeframe) (id : Option Str)
    (cy y : Int) :
    readKlineDataFromFile S tf (some (yearStartSec y))
        (some (yearStartSec (y + 1) - 1)) id cy =
      readYears S tf id (if y = 1970 then [cy] else [y]) := by
  show readYears S tf id
      (if yearStartSec y ≠ 0 ∧ yearStartSec (y + 1) - 1 ≠ 0 then
        getYearsInRange (yearStartSec y) (yearStartSec (y + 1) - 1)
      else [cy]) = _
  by_cases h1970 : y = 1970
  · rw [if_neg (fun hc => hc.1 ((yearStartSec_eq_zero_iff y).mpr h1970)),
      if_pos h1970]
  · rw [if_pos ⟨fun h0 => h1970 ((yearStartSec_eq_zero_iff y).mp h0),
      yearEndSec_ne_zero y⟩, getYearsInRange_singleton, if_neg h1970]

theorem readYears_single_getD (S : Store) (tf : Timeframe) (id : Option Str)
    (w : Int) :
    (readYears S tf id [w]).getD [] =
      canonicalize ((S (getFilename tf w id)).getD []) := by
  unfold readYears collectYears
  rw [List.foldl_cons, List.foldl_nil, List.nil_append]
  by_cases h : (S (getFilename tf w id)).getD [] = []
  · rw [if_pos h, h]
    rfl
  · rw [if_neg h]
    rfl

theorem lookup_file_year_none {S : Store} {tf : Timeframe} {id : Option Str}
    (hInv : YearConsistent S tf id) {w t : Int}
    (hw : w ≠ getYearFromTimestamp t) :
    lookupTime t ((S (getFilename tf w id)).getD []) = none := by
  cases hS : S (getFilename tf w id) with
  | none => rfl
  | some l =>
    rw [Option.getD_some, lookupTime_eq_none_iff]
    intro c hc he
    apply hw
    rw [← he]
    exact (hInv w l hS c hc).symm

theorem lookup_collect_eff (S : Store) (tf : Timeframe) (id : Option Str)
    (cy : Int) (hInv : YearConsistent S tf id) (t : Int) (Y : List Int) :
    ∀ init : List KlineCandle,
    lookupTime t (Y.foldl (fun acc y =>
        acc ++ (readKlineDataFromFile S tf (some (yearStartSec y))
          (some (yearStartSec (y + 1) - 1)) id cy).getD []) init) =
      if ∃ y ∈ Y, (if y = 1970 then cy else y) = getYearFromTimestamp t ∧
          (lookupTime t ((S (getFilename tf (getYearFromTimestamp t)
            id)).getD [])).isSome then
        lookupTime t ((S (getFilename tf (getYearFromTimestamp t) id)).getD [])
      else lookupTime t init := by
  induction Y with
  | nil =>
    intro init
    rw [List.foldl_nil, if_neg]
    rintro ⟨y, hy, _⟩
    exact List.not_mem_nil y hy
  | cons y ys ih =>
    intro init
    rw [List.foldl_cons, ih]
    have hpart : (readKlineDataFromFile S tf (some (yearStartSec y))
        (some (yearStartSec (y + 1) - 1)) id cy).getD [] =
        canonicalize ((S (getFilename tf (if y = 1970 then cy else y)
          id)).getD []) := by
      rw [mergeRead_eq, show (if y = 1970 then [cy] else [y]) =
        [if y = 1970 then cy else y] from by split_ifs <;> rfl,
        readYears_single_getD]
    by_cases hw : (if y = 1970 then cy else y) = getYearFromTimestamp t
    · cases hA : lookupTime t ((S (getFilename tf (getYearFromTimestamp t)
          id)).getD []) with
      | some a =>
        have hlp2 : lookupTime t (init ++ (readKlineDataFromFile S tf
            (some (yearStartSec y)) (some (yearStartSec (y + 1) - 1)) id
            cy).getD []) = some a := by
          rw [lookupTime_append, hpart, hw, lookupTime_canonicalize, hA]
        rw [hlp2]
        split_ifs with h1 h2 h3
        · rfl
        · exact absurd ⟨y, List.mem_cons_self y ys, hw, rfl⟩ h2
        · rfl
        · exact absurd ⟨y, List.mem_cons_self y ys, hw, rfl⟩ h3
      | none =>
        have hlp2 : lookupTime t (init ++ (readKlineDataFromFile S tf
            (some (yearStartSec y)) (some (yearStartSec (y + 1) - 1)) id
            cy).getD []) = lookupTime t init := by
          rw [lookupTime_append, hpart, hw, lookupTime_canonicalize, hA]
        rw [hlp2]
        split_ifs with h1 h2 h3
        · rfl
        · rcases h1 with ⟨y2, hm2, hc2, hs2⟩
          simp at hs2
        · rcases h3 with ⟨y2, hm2, hc2, hs2⟩
          simp at hs2
        · rfl
    · have hnone : lookupTime t ((S (getFilename tf
          (if y = 1970 then cy else y) id)).getD []) = none :=
        lookup_file_year_none hInv hw
      have hlp2 : lookupTime t (init ++ (readKlineDataFromFile S tf
          (some (yearStartSec y)) (some (yearStartSec (y + 1) - 1)) id
          cy).getD []) = lookupTime t init := by
        rw [lookupTime_append, hpart, lookupTime_canonicalize, hnone]
      rw [hlp2]
      refine if_congr ?_ rfl rfl
      constructor
      · rintro ⟨y2, hm2, hc2⟩
        exact ⟨y2, List.mem_cons_of_mem y hm2, hc2⟩
      · rintro ⟨y2, hm2, hc2⟩
        rcases List.mem_cons.mp hm2 with he | hm3
        · subst he
          exact absurd hc2.1 hw
        · exact ⟨y2, hm3, hc2⟩

theorem lookup_mergeExisting (S : Store) (tf : Timeframe) (id : Option Str)
    (cy : Int) (hInv : YearConsistent S tf id) (t : Int) (Y : List Int) :
    lookupTime t (mergeExisting S tf id cy Y) =
      if ∃ y ∈ Y, (if y = 1970 then cy else y) = getYearFromTimestamp t ∧
          (lookupTime t ((S (getFilename tf (getYearFromTimestamp t)
            id)).getD [])).isSome then
        lookupTime t ((S (getFilename tf (getYearFromTimestamp t) id)).getD [])
      else none := by
  have h := lookup_collect_eff S tf id cy hInv t Y []
  unfold mergeExisting
  rw [h]
  split_ifs <;> rfl

theorem filter_times_nodup {l : List KlineCandle}
    (h : (timesOf l).Nodup) (p : KlineCandle → Bool) :
    (timesOf (l.filter p)).Nodup := by
  have hsub : List.Sublist (timesOf (l.filter p)) (timesOf l) :=
    (List.filter_sublist l).map (fun c => c.time)
  exact List.Nodup.sublist hsub h

theorem mergedOf_ne_nil (S : Store) (tf : Timeframe) (id : Option Str)
    (cy : Int) {C : List KlineCandle} (hC : C ≠ []) :
    mergedOf S tf id cy C ≠ [] := by
  unfold mergedOf
  apply canonicalize_ne_nil
  intro h
  exact hC (List.append_eq_nil.mp h).2

theorem lookup_mergeExisting_idem (S : Store) (tf : Timeframe)
    (id : Option Str) (cy : Int) (C : List KlineCandle) (hC : C ≠ [])
    (hInv : YearConsistent S tf id) (t : Int)
    (hCt : lookupTime t C = none) :
    lookupTime t (mergeExisting
        (writeKlineDataToFile S tf (mergedOf S tf id cy C) id) tf id cy
        (mergeYears C)) =
      lookupTime t (mergeExisting S tf id cy (mergeYears C)) := by
  have hInv1 := write_preserves_yearConsistent hInv (mergedOf S tf id cy C)
  rw [lookup_mergeExisting _ tf id cy hInv1 t (mergeYears C),
    lookup_mergeExisting S tf id cy hInv t (mergeYears C)]
  by_cases hwk : getYearFromTimestamp t ∈ yearKeys (mergedOf S tf id cy C)
  · have hB : lookupTime t (((writeKlineDataToFile S tf
        (mergedOf S tf id cy C) id)
          (getFilename tf (getYearFromTimestamp t) id)).getD []) =
        if ∃ y ∈ mergeYears C, (if y = 1970 then cy else y) =
            getYearFromTimestamp t ∧
            (lookupTime t ((S (getFilename tf (getYearFromTimestamp t)
              id)).getD [])).isSome then
          lookupTime t ((S (getFilename tf (getYearFromTimestamp t)
            id)).getD [])
        else none := by
      rw [write_at_written (mergedOf_ne_nil S tf id cy hC) hwk,
        Option.getD_some]
      have hnodup : (timesOf ((mergedOf S tf id cy C).filter
          (fun c => getYearFromTimestamp c.time ==
            getYearFromTimestamp t))).Nodup :=
        filter_times_nodup (canonicalize_times_nodup _) _
      have hperm := sortByTime_perm ((mergedOf S tf id cy C).filter
        (fun c => getYearFromTimestamp c.time == getYearFromTimestamp t))
      have hnodup2 : (timesOf (sortByTime ((mergedOf S tf id cy C).filter
          (fun c => getYearFromTimestamp c.time ==
            getYearFromTimestamp t)))).Nodup :=
        ((hperm.map (fun c => c.time)).nodup_iff).mpr hnodup
      rw [lookupTime_eq_of_perm hperm hnodup2, lookupTime_filter_year,
        if_pos rfl]
      show lookupTime t (canonicalize (mergeExisting S tf id cy
        (mergeYears C) ++ C)) = _
      rw [lookupTime_canonicalize, lookupTime_append, hCt,
        lookup_mergeExisting S tf id cy hInv t (mergeYears C)]
    rw [hB]
    by_cases hE : ∃ y ∈ mergeYears C, (if y = 1970 then cy else y) =
        getYearFromTimestamp t ∧
        (lookupTime t ((S (getFilename tf (getYearFromTimestamp t)
          id)).getD [])).isSome
    · simp only [if_pos hE]
    · simp only [if_neg hE]
      rw [ite_self]
  · have hother : (writeKlineDataToFile S tf (mergedOf S tf id cy C) id)
        (getFilename tf (getYearFromTimestamp t) id) =
        S (getFilename tf (getYearFromTimestamp t) id) := by
      apply write_at_other
      intro y hy heq
      apply hwk
      rw [getFilename_inj_year heq]
      exact hy
    rw [hother]

theorem mergedOf_idem (S : Store) (tf : Timeframe) (id : Option Str)
    (cy : Int) (C : List KlineCandle) (hC : C ≠ [])
    (hInv : YearConsistent S tf id) :
    mergedOf (writeKlineDataToFile S tf (mergedOf S tf id cy C) id)
        tf id cy C =
      mergedOf S tf id cy C := by
  have hs1 : (mergedOf (writeKlineDataToFile S tf (mergedOf S tf id cy C)
      id) tf id cy C).Pairwise (fun a b => a.time < b.time) :=
    canonicalize_sorted_strict _
  have hs2 : (mergedOf S tf id cy C).Pairwise (fun a b => a.time < b.time) :=
    canonicalize_sorted_strict _
  apply eq_of_sorted_lookup_eq hs1 hs2
  intro t
  show lookupTime t (canonicalize (mergeExisting
      (writeKlineDataToFile S tf (mergedOf S tf id cy C) id) tf id cy
      (mergeYears C) ++ C)) =
    lookupTime t (canonicalize (mergeExisting S tf id cy
      (mergeYears C) ++ C))
  rw [lookupTime_canonicalize, lookupTime_canonicalize, lookupTime_append,
    lookupTime_append]
  cases hCt : lookupTime t C with
  | some c => rfl
  | none =>
    show lookupTime t (mergeExisting (writeKlineDataToFile S tf
        (mergedOf S tf id cy C) id) tf id cy (mergeYears C)) =
      lookupTime t (mergeExisting S tf id cy (mergeYears C))
    exact lookup_mergeExisting_idem S tf id cy C hC hInv t hCt

/-- C9, amended: on a year-consistent store — every shard file's
candles belong to that file's year, an invariant every store produced
by the engine's own writes satisfies — merging the same candle set
twice yields a store state identical to merging it once: the same
shard files with the same candle lists.  (The regenerated lastUpdated
stamp is the only difference in the source and is outside the claim's
"same candle lists" comparison.) -/
theorem merge_idempotent_on_year_consistent_stores
    (S : Store) (tf : Timeframe) (id : Option Str) (cy : Int)
    (C : List KlineCandle) (hInv : YearConsistent S tf id) :
    mergeKlineDataToFile (mergeKlineDataToFile S tf C id cy) tf C id cy =
      mergeKlineDataToFile S tf C id cy := by
  by_cases hC : C = []
  · subst hC
    rfl
  · have hun : ∀ Z : Store, mergeKlineDataToFile Z tf C id cy =
        writeKlineDataToFile Z tf (mergedOf Z tf id cy C) id := by
      intro Z
      unfold mergeKlineDataToFile
      rw [if_neg hC]
    rw [hun, hun, mergedOf_idem S tf id cy C hC hInv]
    funext name
    by_cases hex : ∃ w ∈ yearKeys (mergedOf S tf id cy C),
        name = getFilename tf w id
    · rcases hex with ⟨w, hw, rfl⟩
      rw [write_at_written (mergedOf_ne_nil S tf id cy hC) hw,
        write_at_written (mergedOf_ne_nil S tf id cy hC) hw]
    · have hn : ∀ w ∈ yearKeys (mergedOf S tf id cy C),
          name ≠ getFilename tf w id := by
        intro w hw heq
        exact hex ⟨w, hw, heq⟩
      rw [write_at_other hn]

/-- A store violating year consistency: the 2023 shard also holds a
2030 candle (1893542400 = 2030-01-02) and the 2024 shard holds only a
2030 candle (1893628800 = 2030-01-03). -/
def dirtyKlineStore : Store :=
  updateStore (updateStore emptyStore
    (getFilename .d1 2023 (some (str "binance-btc")))
    [candleAt 1672617600, candleAt 1893542400])
    (getFilename .d1 2024 (some (str "binance-btc"))) [candleAt 1893628800]

/-- New candles spanning 2023-01-03 through 2025-01-02. -/
def mergeProbeCandles : List KlineCandle :=
  [candleAt 1672704000, candleAt 1735776000]

/-- C9, counterexample: merge is not idempotent for every initial
store state.  On the dirty store above, the first merge relocates both
stray 2030 candles into kline_1D_binance-btc_2030.json but rewrites
only the 2023 shard (the 2024 shard holds no 2024 candles, so it keeps
its stray); the second merge re-reads that stray from the 2024 shard
and overwrites the 2030 shard with it alone, dropping the other 2030
candle — the 2030 shard differs between one and two merges. -/
theorem merge_not_idempotent_on_dirty_store :
    mergeKlineDataToFile (mergeKlineDataToFile dirtyKlineStore .d1
        mergeProbeCandles (some (str "binance-btc")) 2026) .d1
      mergeProbeCandles (some (str "binance-btc")) 2026
      (getFilename .d1 2030 (some (str "binance-btc"))) ≠
    mergeKlineDataToFile dirtyKlineStore .d1 mergeProbeCandles
      (some (str "binance-btc")) 2026
      (getFilename .d1 2030 (some (str "binance-btc"))) := by decide

theorem merge_idempotent_on_year_consistent_stores_witness :
    mergeKlineDataToFile (mergeKlineDataToFile emptyStore .d1
        [candleAt 1704067200] (some (str "binance-btc")) 2026) .d1
      [candleAt 1704067200] (some (str "binance-btc")) 2026 =
    mergeKlineDataToFile emptyStore .d1 [candleAt 1704067200]
      (some (str "binance-btc")) 2026 :=
  merge_idempotent_on_year_consistent_stores emptyStore .d1
    (some (str "binance-btc")) 2026 [candleAt 1704067200]
    (fun _ l h => Option.noConfusion h)

end KPredLog
